import Mathlib

set_option maxRecDepth 4000

/-!
Verification development for the Serverless-Elysia-Redis-HTTP adapter.

The definitions below are a shallow embedding of the Command Execution and
Connection Management subsystem:
  * `src/utils/parser.ts` (command parsing and result serialization),
  * `src/utils/security.ts` and `src/middleware/command-filter.ts`
    (command filter policy),
  * `src/redis/client.ts` (`RedisClientManager`: single/pool/cluster
    connection management, pipeline and transaction execution),
  * `src/routes/commands.ts` (the route handlers composing the above).

JavaScript runtime values that can appear in a parsed request body are
modelled by the inductive type `JVal`; Redis backend results by `RValue`;
JSON-safe response values by `JSValue`.  Machine mutation becomes explicit
state passing; promises/async steps become explicit step functions; thrown
exceptions become `Except` values carrying the error message.
-/

/-- JavaScript values that a parsed JSON request body (plus `Buffer` and
`undefined`, which can occur at the JS level) may contain. -/
inductive JVal : Type where
  | null : JVal
  | undef : JVal
  | bool : Bool → JVal
  | num : Int → JVal
  | str : String → JVal
  | buf : List Nat → JVal
  | arr : List JVal → JVal
  | obj : List (String × JVal) → JVal

/-- A coerced command argument, as produced by the parser
(`string | number | Buffer` in the source; `undef` records the JS value
`undefined` that `JSON.stringify(undefined)` yields). -/
inductive Arg : Type where
  | str : String → Arg
  | num : Int → Arg
  | buf : List Nat → Arg
  | undef : Arg
deriving DecidableEq, Repr

/-- One hexadecimal digit, used by the JSON string escaper. -/
def hexDigit (n : Nat) : Char :=
  if n < 10 then Char.ofNat (48 + n) else Char.ofNat (87 + n)

/-- Escape one character the way `JSON.stringify` escapes characters inside
a JSON string literal. -/
def escapeJsonChar (c : Char) : String :=
  if c = '\x22' then "\\\x22"
  else if c = '\\' then "\\\\"
  else if c = '\x08' then "\\b"
  else if c = '\x09' then "\\t"
  else if c = '\x0a' then "\\n"
  else if c = '\x0c' then "\\f"
  else if c = '\x0d' then "\\r"
  else if c.toNat < 32 then
    "\\u00" ++ String.mk [hexDigit (c.toNat / 16), hexDigit (c.toNat % 16)]
  else String.mk [c]

/-- Render a string as a JSON string literal (quote plus escapes), as
`JSON.stringify` does. -/
def jsonQuote (s : String) : String :=
  "\x22" ++ String.join (s.data.map escapeJsonChar) ++ "\x22"

mutual

/-- Embedding of `JSON.stringify`.  `none` models the JS result
`undefined` (which `JSON.stringify` returns on `undefined` input); inside
arrays an `undefined` element renders as `null`, and inside objects a
property whose value stringifies to `undefined` is dropped.  A `Buffer`
stringifies through its `toJSON` form. -/
def jsonStringifyOpt : JVal → Option String
  | JVal.undef => none
  | JVal.null => some "null"
  | JVal.bool true => some "true"
  | JVal.bool false => some "false"
  | JVal.num n => some n.repr
  | JVal.str s => some (jsonQuote s)
  | JVal.buf b =>
      some ("\x7b\x22type\x22:\x22Buffer\x22,\x22data\x22:["
        ++ String.intercalate "," (b.map Nat.repr) ++ "]\x7d")
  | JVal.arr l => some ("[" ++ String.intercalate "," (jsonArrElems l) ++ "]")
  | JVal.obj l => some ("\x7b" ++ String.intercalate "," (jsonObjElems l) ++ "\x7d")

/-- Rendered elements of a JSON array (an `undefined` element renders as
`null`). -/
def jsonArrElems : List JVal → List String
  | [] => []
  | v :: vs => (jsonStringifyOpt v).getD "null" :: jsonArrElems vs

/-- Rendered properties of a JSON object (a property with `undefined`
value is dropped). -/
def jsonObjElems : List (String × JVal) → List String
  | [] => []
  | (k, v) :: ps =>
      match jsonStringifyOpt v with
      | none => jsonObjElems ps
      | some s => (jsonQuote k ++ ":" ++ s) :: jsonObjElems ps

end

/-- Total rendering of a JS value to JSON text; only meaningful for values
on which `JSON.stringify` does not return `undefined`. -/
def jsonText (v : JVal) : String :=
  (jsonStringifyOpt v).getD ""

/-- Embedding of JS `.toUpperCase()` on ASCII command names: upper-case
every character.  This is extensionally equal to `String.toUpper` (see
`jsToUpper_eq_toUpper`) but defined through the character list so that it
computes by definitional unfolding. -/
def jsToUpper (s : String) : String :=
  String.mk (s.data.map Char.toUpper)

/-- Helper: `jsToUpper` agrees with the library `String.toUpper`. -/
theorem jsToUpper_eq_toUpper (s : String) : jsToUpper s = s.toUpper := by
  rw [String.toUpper, String.map_eq]
  rfl

/-- A parsed command: upper-cased name plus coerced arguments
(`ParsedCommand` in `src/types/upstash.ts`). -/
def ParsedCommand : Type := String × List Arg

instance : DecidableEq ParsedCommand := by
  unfold ParsedCommand
  infer_instance

/-- Argument coercion used by the JSON-array body rule
(`parseBodyCommand`, `src/utils/parser.ts` lines 61-70): strings and
numbers pass through, `Buffer`s pass through, everything else goes through
`JSON.stringify` (on `undefined` that call itself yields `undefined`). -/
def coerceBodyArg : JVal → Arg
  | JVal.str s => Arg.str s
  | JVal.num n => Arg.num n
  | JVal.buf b => Arg.buf b
  | JVal.undef => Arg.undef
  | v => Arg.str (jsonText v)

/-- Array-form body parsing (`parseBodyCommand`, array branch,
`src/utils/parser.ts` lines 49-73). -/
def parseArrayBody (body : List JVal) : Except String ParsedCommand :=
  match body with
  | [] => Except.error "Empty command array"
  | command :: args =>
      match command with
      | JVal.str c => Except.ok (jsToUpper c, args.map coerceBodyArg)
      | _ => Except.error "Command must be a string"

/-- The `args` list extracted from an object-form body:
the source computes `Array.isArray(obj.args) ? obj.args : []`. -/
def objArgs (fields : List (String × JVal)) : List JVal :=
  match List.lookup "args" fields with
  | some (JVal.arr l) => l
  | _ => []

/-- Embedding of `parseBodyCommand` (`src/utils/parser.ts` lines 48-85).
The object branch delegates to the array rule after prepending the command
name, exactly as the source recurses with `[obj.command, ...args]`.
`Buffer`s, `null` and non-object values fall through to the generic
format error just as in JS (where a `Buffer` has no `command` property). -/
def parseBodyCommand (body : JVal) : Except String ParsedCommand :=
  match body with
  | JVal.arr l => parseArrayBody l
  | JVal.obj fields =>
      match List.lookup "command" fields with
      | some (JVal.str c) => parseArrayBody (JVal.str c :: objArgs fields)
      | _ => Except.error "Invalid command format. Expected array or object with command property."
  | _ => Except.error "Invalid command format. Expected array or object with command property."

/-- Body of the `.map((cmd, index) => ...)` in `parseMultipleCommands`:
parse one element, rewrapping a failure with its index. -/
def parseCommandAt (index : Nat) (cmd : JVal) : Except String ParsedCommand :=
  match parseBodyCommand cmd with
  | Except.ok r => Except.ok r
  | Except.error m =>
      Except.error ("Invalid command at index " ++ Nat.repr index ++ ": " ++ m)

/-- Sequential traversal of the batch starting at `index`; a throw inside
the JS `.map` aborts the whole traversal at the first failing element. -/
def parseAllFrom (index : Nat) : List JVal → Except String (List ParsedCommand)
  | [] => Except.ok []
  | c :: cs =>
      match parseCommandAt index c with
      | Except.error e => Except.error e
      | Except.ok r =>
          match parseAllFrom (index + 1) cs with
          | Except.error e => Except.error e
          | Except.ok rs => Except.ok (r :: rs)

/-- Embedding of `parseMultipleCommands` (`src/utils/parser.ts`
lines 92-109). -/
def parseMultipleCommands (body : JVal) : Except String (List ParsedCommand) :=
  match body with
  | JVal.arr l =>
      if l.length = 0 then Except.error "Empty command array"
      else parseAllFrom 0 l
  | _ => Except.error "Expected array of commands"

/-- Redis backend result values: what an ioredis call can hand back to
`serializeResult` (`null`/`undefined`, strings, numbers, bigints,
`Buffer`s, and nested arrays thereof). -/
inductive RValue : Type where
  | null : RValue
  | undef : RValue
  | str : String → RValue
  | num : Int → RValue
  | bigint : Int → RValue
  | buf : List Nat → RValue
  | arr : List RValue → RValue

/-- JSON-safe values produced by `serializeResult`. -/
inductive JSValue : Type where
  | null : JSValue
  | str : String → JSValue
  | num : Int → JSValue
  | arr : List JSValue → JSValue

/-- Standard base64 alphabet. -/
def base64Alphabet : List Char :=
  "ABCDEFGHIJKLMNOPQRSTUVWXYZabcdefghijklmnopqrstuvwxyz0123456789+/".data

/-- One base64 digit. -/
def b64Char (n : Nat) : Char :=
  base64Alphabet.getD n '='

/-- Base64 rendering of a byte list, modelling `buffer.toString("base64")`. -/
def base64Encode : List Nat → String
  | [] => ""
  | [a] =>
      String.mk [b64Char (a / 4), b64Char (a % 4 * 16)] ++ "=="
  | [a, b] =>
      String.mk [b64Char (a / 4), b64Char (a % 4 * 16 + b / 16), b64Char (b % 16 * 4)] ++ "="
  | a :: b :: c :: rest =>
      String.mk [b64Char (a / 4), b64Char (a % 4 * 16 + b / 16),
        b64Char (b % 16 * 4 + c / 64), b64Char (c % 64)] ++ base64Encode rest

/-- Embedding of `serializeResult` (`src/utils/parser.ts` lines 117-149).
The UTF-8 decoding attempt `result.toString("utf-8")` inside the source's
try/catch is abstracted as a decoder `dec`; `dec b = none` models the
decode raising (the catch branch falls back to base64).  Branches appear
in source order: null, undefined, Buffer, Array, bigint, the literal
acknowledgement "OK", then pass-through. -/
def serializeResult (dec : List Nat → Option String) : RValue → JSValue
  | RValue.null => JSValue.null
  | RValue.undef => JSValue.null
  | RValue.buf b =>
      match dec b with
      | some s => JSValue.str s
      | none => JSValue.str (base64Encode b)
  | RValue.arr l => JSValue.arr (l.attach.map (fun x => serializeResult dec x.1))
  | RValue.bigint n => JSValue.num n
  | RValue.str s => if s = "OK" then JSValue.str "OK" else JSValue.str s
  | RValue.num n => JSValue.num n
termination_by v => sizeOf v
decreasing_by
  have := List.sizeOf_lt_of_mem x.2
  simp only [RValue.arr.sizeOf_spec]
  omega

/-- A response envelope: `\x7b result: ... \x7d` or `\x7b error: ... \x7d`. -/
inductive Envelope : Type where
  | success : JSValue → Envelope
  | failure : String → Envelope

/-- Embedding of `formatSuccess` (`src/utils/parser.ts` lines 156-158). -/
def formatSuccess (dec : List Nat → Option String) (result : RValue) : Envelope :=
  Envelope.success (serializeResult dec result)

/-- Embedding of `formatError` (`src/utils/parser.ts` lines 165-168);
errors are modelled by their message string. -/
def formatError (message : String) : Envelope :=
  Envelope.failure message

/-- Embedding of `formatMultipleResults` (`src/utils/parser.ts`
lines 175-184): map each `(error, value)` pair independently into its
own envelope. -/
def formatMultipleResults (dec : List Nat → Option String)
    (results : List (Option String × RValue)) : List Envelope :=
  results.map fun p =>
    match p.1 with
    | some err => formatError err
    | none => formatSuccess dec p.2

/-- Builtin dangerous command set (`DANGEROUS_COMMANDS`,
`src/utils/security.ts`). -/
def DANGEROUS_COMMANDS : List String :=
  ["FLUSHALL", "FLUSHDB",
   "CONFIG", "ACL", "BGREWRITEAOF", "BGSAVE", "SAVE",
   "EVAL", "EVALSHA", "EVALSHA_RO", "EVAL_RO", "SCRIPT", "FUNCTION", "FCALL", "FCALL_RO",
   "MODULE",
   "SHUTDOWN", "DEBUG", "SLOWLOG",
   "SLAVEOF", "REPLICAOF", "MIGRATE", "RESTORE", "DUMP",
   "CLUSTER", "READONLY", "READWRITE",
   "CLIENT",
   "KEYS", "OBJECT", "MEMORY",
   "PUNSUBSCRIBE", "UNSUBSCRIBE",
   "LATENCY",
   "MONITOR"]

/-- Builtin safe command set (`SAFE_COMMANDS`, `src/utils/security.ts`). -/
def SAFE_COMMANDS : List String :=
  ["GET", "SET", "SETNX", "SETEX", "PSETEX", "MGET", "MSET", "MSETNX",
   "INCR", "INCRBY", "INCRBYFLOAT", "DECR", "DECRBY", "APPEND", "STRLEN",
   "GETRANGE", "SETRANGE", "GETSET", "GETEX", "GETDEL",
   "HGET", "HSET", "HSETNX", "HMGET", "HMSET", "HGETALL", "HDEL", "HEXISTS",
   "HINCRBY", "HINCRBYFLOAT", "HKEYS", "HVALS", "HLEN", "HSCAN", "HRANDFIELD",
   "LPUSH", "RPUSH", "LPUSHX", "RPUSHX", "LPOP", "RPOP", "LRANGE", "LLEN",
   "LINDEX", "LSET", "LINSERT", "LREM", "LTRIM", "BLPOP", "BRPOP", "LPOS",
   "LMOVE", "BLMOVE",
   "SADD", "SREM", "SMEMBERS", "SISMEMBER", "SMISMEMBER", "SCARD", "SUNION",
   "SINTER", "SDIFF", "SUNIONSTORE", "SINTERSTORE", "SDIFFSTORE", "SPOP",
   "SRANDMEMBER", "SMOVE", "SSCAN", "SINTERCARD",
   "ZADD", "ZREM", "ZRANGE", "ZRANGEBYSCORE", "ZRANGEBYLEX", "ZREVRANGE",
   "ZREVRANGEBYSCORE", "ZREVRANGEBYLEX", "ZSCORE", "ZMSCORE", "ZCARD",
   "ZCOUNT", "ZLEXCOUNT", "ZINCRBY", "ZRANK", "ZREVRANK", "ZUNIONSTORE",
   "ZINTERSTORE", "ZSCAN", "ZPOPMIN", "ZPOPMAX", "BZPOPMIN", "BZPOPMAX",
   "ZRANDMEMBER", "ZRANGESTORE", "ZMPOP", "BZMPOP", "ZINTER", "ZUNION",
   "ZDIFF", "ZDIFFSTORE", "ZINTERCARD",
   "DEL", "UNLINK", "EXISTS", "EXPIRE", "EXPIREAT", "PEXPIRE", "PEXPIREAT",
   "EXPIRETIME", "PEXPIRETIME", "TTL", "PTTL", "PERSIST", "TYPE", "RENAME",
   "RENAMENX", "SCAN", "SORT", "SORT_RO", "TOUCH", "COPY",
   "PING", "ECHO", "INFO", "DBSIZE", "TIME",
   "MULTI", "EXEC", "DISCARD", "WATCH", "UNWATCH",
   "PUBLISH", "PUBSUB",
   "XADD", "XREAD", "XRANGE", "XREVRANGE", "XLEN", "XTRIM", "XDEL", "XGROUP",
   "XREADGROUP", "XACK", "XCLAIM", "XAUTOCLAIM", "XPENDING", "XINFO", "XSETID",
   "PFADD", "PFCOUNT", "PFMERGE",
   "GEOADD", "GEODIST", "GEOHASH", "GEOPOS", "GEORADIUS", "GEORADIUSBYMEMBER",
   "GEOSEARCH", "GEOSEARCHSTORE",
   "SETBIT", "GETBIT", "BITCOUNT", "BITOP", "BITPOS", "BITFIELD", "BITFIELD_RO",
   "JSON.GET", "JSON.SET", "JSON.DEL", "JSON.MGET", "JSON.TYPE",
   "JSON.NUMINCRBY", "JSON.STRAPPEND", "JSON.STRLEN", "JSON.ARRAPPEND",
   "JSON.ARRINDEX", "JSON.ARRINSERT", "JSON.ARRLEN", "JSON.ARRPOP",
   "JSON.ARRTRIM", "JSON.OBJKEYS", "JSON.OBJLEN"]

/-- Embedding of `isDangerousCommand` (`src/utils/security.ts`). -/
def isDangerousCommand (command : String) : Bool :=
  DANGEROUS_COMMANDS.contains (jsToUpper command)

/-- Embedding of `isSafeCommand` (`src/utils/security.ts`). -/
def isSafeCommand (command : String) : Bool :=
  SAFE_COMMANDS.contains (jsToUpper command)

/-- The command filter mode (`CommandFilterMode` in `src/config.ts`). -/
inductive FilterMode : Type where
  | blocklist : FilterMode
  | allowlist : FilterMode
  | nofilter : FilterMode
deriving DecidableEq, Repr

/-- The slice of the configuration consumed by `validateCommand`. -/
structure FilterConfig : Type where
  commandFilterMode : FilterMode
  additionalBlockedCommands : List String
  additionalAllowedCommands : List String
deriving DecidableEq, Repr

/-- Message of a `CommandBlockedError`
(`src/middleware/command-filter.ts` lines 12-17). -/
def commandBlockedMessage (command : String) (reason : String) : String :=
  "Command \x27" ++ command ++ "\x27 is blocked: " ++ reason

/-- Embedding of `validateCommand` (`src/middleware/command-filter.ts`
lines 24-56); a raised `CommandBlockedError` becomes `Except.error` with
the error message. -/
def validateCommand (cfg : FilterConfig) (command : String) : Except String Unit :=
  let cmd := jsToUpper command
  match cfg.commandFilterMode with
  | FilterMode.blocklist =>
      if isDangerousCommand cmd then
        Except.error (commandBlockedMessage cmd "dangerous command blocked for security")
      else if cfg.additionalBlockedCommands.contains cmd then
        Except.error (commandBlockedMessage cmd "command blocked by configuration")
      else Except.ok ()
  | FilterMode.allowlist =>
      if isSafeCommand cmd || cfg.additionalAllowedCommands.contains cmd then
        Except.ok ()
      else Except.error (commandBlockedMessage cmd "command not in allowlist")
  | FilterMode.nofilter => Except.ok ()

/-- Embedding of `validateCommands` (`src/middleware/command-filter.ts`
lines 63-67): validate each command name in order, stopping at the first
raised error. -/
def validateCommands (cfg : FilterConfig) : List ParsedCommand → Except String Unit
  | [] => Except.ok ()
  | c :: rest =>
      match validateCommand cfg c.1 with
      | Except.error e => Except.error e
      | Except.ok _ => validateCommands cfg rest

/-- One pooled connection, identified by the slot index it was created
for, with its readiness status (`status === "ready"`). -/
structure PoolConn : Type where
  idx : Nat
  ready : Bool
deriving DecidableEq, Repr

/-- Successful `client.connect()` on a pooled connection: the connection
becomes ready; its identity (slot) is unchanged. -/
def connConnect (c : PoolConn) : PoolConn :=
  PoolConn.mk c.idx true

/-- Mutable pool state of `RedisClientManager`: the `pool` array and the
round-robin cursor `poolIndex`. -/
structure PoolState : Type where
  pool : List PoolConn
  poolIndex : Nat
deriving DecidableEq, Repr

/-- Embedding of `initializePool` (`src/redis/client.ts` lines 313-329):
`poolSize = Math.max(config.pool.min, 1)` connections are created (each
connected, hence ready).  The configured minimum is an integer to allow
for non-positive configured values. -/
def initializePool (poolMin : Int) : List PoolConn :=
  (List.range (max poolMin 1).toNat).map (fun i => PoolConn.mk i true)

/-- Embedding of `getPooledClient` (`src/redis/client.ts` lines 256-272):
initialize the pool if empty, select `pool[poolIndex]`, advance the
cursor modulo the pool size, reconnect the selected connection inline if
it is not ready, and return it. -/
def getPooledClient (poolMin : Int) (s : PoolState) : PoolConn × PoolState :=
  let pool := if s.pool.length = 0 then initializePool poolMin else s.pool
  let client := pool.getD s.poolIndex (PoolConn.mk 0 false)
  let nextIndex := (s.poolIndex + 1) % pool.length
  let client' := if client.ready then client else connConnect client
  (client', PoolState.mk (pool.set s.poolIndex client') nextIndex)

/-- The sequence of pool slots read by consecutive `getPooledClient`
calls: each step records the cursor position used for the selection. -/
def selectedSlots (poolMin : Int) (s : PoolState) : Nat → List Nat
  | 0 => []
  | Nat.succ k => s.poolIndex :: selectedSlots poolMin (getPooledClient poolMin s).2 k

/-- Shared connection-creation state of `RedisClientManager` for the
single-connection and cluster paths: whether the cached client is ready
(`this.client?.status === "ready"`), and the identity of the in-flight
connection attempt (`this.connectionPromise`), if any. -/
structure MgrState : Type where
  clientReady : Bool
  connectionPromise : Option Nat
deriving DecidableEq, Repr

/-- What an acquire call does before any suspension: return the cached
ready client, await the existing in-flight attempt, or start a fresh
attempt. -/
inductive AcquireAction : Type where
  | cached : AcquireAction
  | sharedAttempt : Nat → AcquireAction
  | startAttempt : Nat → AcquireAction
deriving DecidableEq, Repr

/-- The synchronous prefix of `getSingleClient`
(`src/redis/client.ts` lines 232-245) and of the identically structured
`getClusterClient` (lines 274-283): fast path on a ready client, else
share the in-flight `connectionPromise`, else store a fresh attempt
(identified by `fresh`) into `connectionPromise` and start it. -/
def acquireStep (s : MgrState) (fresh : Nat) : AcquireAction × MgrState :=
  if s.clientReady then (AcquireAction.cached, s)
  else
    match s.connectionPromise with
    | some p => (AcquireAction.sharedAttempt p, s)
    | none => (AcquireAction.startAttempt fresh, MgrState.mk s.clientReady (some fresh))

/-- Completion of the awaited creation attempt, i.e. the continuation in
the try/catch of `getSingleClient` (lines 246-253) and `getClusterClient`
(lines 285-291): on success the realized client is cached (ready); on
failure the catch clears `connectionPromise` before rethrowing, leaving
the client as it was. -/
def settleAttempt (s : MgrState) (success : Bool) : MgrState :=
  if success then MgrState.mk true s.connectionPromise
  else MgrState.mk s.clientReady none

/-- Upper-case the queued command names, as both `pipeline` and
`transaction` do via `cmd.toUpperCase()` when queueing calls in input
order (`src/redis/client.ts` lines 470-472 and 487-489). -/
def queuedCommands (cmds : List ParsedCommand) : List ParsedCommand :=
  cmds.map (fun c => (jsToUpper c.1, c.2))

/-- Embedding of `RedisClientManager.pipeline`
(`src/redis/client.ts` lines 464-476).  The backend batch execution
(`pipeline.exec()`) is abstracted as `exec`, mapping the queued commands
to `null` (aborted) or an ordered list of `(error, value)` pairs; the
source turns a `null` result into `[]` via `results ?? []`. -/
def pipelineRun (cmds : List ParsedCommand)
    (exec : List ParsedCommand → Option (List (Option String × RValue))) :
    List (Option String × RValue) :=
  (exec (queuedCommands cmds)).getD []

/-- Message selector for the first failing transaction entry:
`errors[0][0]?.message` interpolated into a template literal (a missing
error object would render as the text "undefined"). -/
def errMessage : Option String → String
  | some m => m
  | none => "undefined"

/-- Embedding of `RedisClientManager.transaction`
(`src/redis/client.ts` lines 481-503): queue the commands in order, run
`multi.exec()` (abstracted as `exec`); a `null` result raises
"Transaction was aborted"; otherwise the per-command outcomes are
filtered for errors and, if any exists, a single aggregate error naming
the first failing command message is raised; otherwise the values are
returned in order. -/
def transactionRun (cmds : List ParsedCommand)
    (exec : List ParsedCommand → Option (List (Option String × RValue))) :
    Except String (List RValue) :=
  match exec (queuedCommands cmds) with
  | none => Except.error "Transaction was aborted"
  | some results =>
      match results.filter (fun p => p.1.isSome) with
      | [] => Except.ok (results.map Prod.snd)
      | e :: _ => Except.error ("Transaction failed: " ++ errMessage e.1)

/-- A route response for the batch endpoints: either a JSON array of
per-command envelopes, or a single top-level envelope. -/
def BatchResponse : Type := Sum (List Envelope) Envelope

/-- Embedding of the `POST /pipeline` handler
(`src/routes/commands.ts` lines 69-95), starting from already parsed
commands: validate all commands, then run the pipeline and format each
outcome into its own envelope; a raised error becomes a single error
envelope. -/
def pipelineRoute (cfg : FilterConfig) (dec : List Nat → Option String)
    (cmds : List ParsedCommand)
    (exec : List ParsedCommand → Option (List (Option String × RValue))) :
    BatchResponse :=
  match validateCommands cfg cmds with
  | Except.error e => Sum.inr (formatError e)
  | Except.ok _ => Sum.inl (formatMultipleResults dec (pipelineRun cmds exec))

/-- Embedding of the `POST /multi-exec` handler
(`src/routes/commands.ts` lines 101-127), starting from already parsed
commands: validate all commands, run the transaction, and on success map
every value through `formatSuccess`; any raised error becomes a single
error envelope. -/
def multiExecRoute (cfg : FilterConfig) (dec : List Nat → Option String)
    (cmds : List ParsedCommand)
    (exec : List ParsedCommand → Option (List (Option String × RValue))) :
    BatchResponse :=
  match validateCommands cfg cmds with
  | Except.error e => Sum.inr (formatError e)
  | Except.ok _ =>
      match transactionRun cmds exec with
      | Except.error e => Sum.inr (formatError e)
      | Except.ok results => Sum.inl (results.map (fun r => formatSuccess dec r))

/-- Argument coercion of the hybrid path+body form
(`src/routes/commands.ts` lines 161-169): strings and numbers pass
through, `null` and `undefined` become the empty string, anything else is
JSON-serialized. -/
def coerceHybridArg : JVal → Arg
  | JVal.str s => Arg.str s
  | JVal.num n => Arg.num n
  | JVal.null => Arg.str ""
  | JVal.undef => Arg.str ""
  | v => Arg.str (jsonText v)

/-- The hybrid path+body branch of the catch-all route
(`src/routes/commands.ts` lines 158-169), taken when the body is a
non-empty array: the first path segment (upper-cased) is the command,
the body elements are the coerced arguments. -/
def hybridParse (seg0 : String) (body : List JVal) : ParsedCommand :=
  (jsToUpper seg0, body.map coerceHybridArg)

/-- Helper: packing a valid codepoint and reading it back is the identity. -/
theorem charToNat_ofNat_valid {n : Nat} (h : n.isValidChar) :
    (Char.ofNat n).toNat = n := by
  rw [Char.ofNat, dif_pos h]
  rfl

/-- Helper: ASCII upper-casing of a character is idempotent. -/
theorem char_toUpper_idem (c : Char) : c.toUpper.toUpper = c.toUpper := by
  simp only [Char.toUpper]
  by_cases h : c.toNat ≥ 97 ∧ c.toNat ≤ 122
  · rw [if_pos h]
    have hv : Nat.isValidChar (c.toNat - 32) := Or.inl (by omega)
    have ht : (Char.ofNat (c.toNat - 32)).toNat = c.toNat - 32 :=
      charToNat_ofNat_valid hv
    have hneg : ¬((Char.ofNat (c.toNat - 32)).toNat ≥ 97 ∧
        (Char.ofNat (c.toNat - 32)).toNat ≤ 122) := by
      rw [ht]
      omega
    rw [if_neg hneg]
  · rw [if_neg h, if_neg h]

/-- Helper: upper-casing a string is idempotent. -/
theorem string_toUpper_idem (s : String) : s.toUpper.toUpper = s.toUpper := by
  simp only [String.toUpper, String.map_eq, List.map_map]
  exact congrArg String.mk (List.map_congr_left (fun c _ => char_toUpper_idem c))

/-- Helper: unfolding of the array case of `serializeResult`. -/
theorem serializeResult_arr (dec : List Nat → Option String) (l : List RValue) :
    serializeResult dec (RValue.arr l) = JSValue.arr (l.map (serializeResult dec)) := by
  rw [serializeResult]
  exact congrArg JSValue.arr (List.attach_map_val l (serializeResult dec))

/-- C6: in the hybrid path+body form, a body element that is `null` or
absent (`undefined`) is coerced to the empty string (not the JSON text
"null"), text and numeric elements pass through unchanged, and any other
value is JSON-serialized; this coercion rule differs from the pure
JSON-array body rule. -/
theorem hybridCoercion_spec :
    (coerceHybridArg JVal.null = Arg.str "" ∧ coerceHybridArg JVal.undef = Arg.str "")
    ∧ (∀ s, coerceHybridArg (JVal.str s) = Arg.str s)
    ∧ (∀ n, coerceHybridArg (JVal.num n) = Arg.num n)
    ∧ (∀ b, coerceHybridArg (JVal.bool b) = Arg.str (jsonText (JVal.bool b)))
    ∧ (∀ l, coerceHybridArg (JVal.arr l) = Arg.str (jsonText (JVal.arr l)))
    ∧ (∀ o, coerceHybridArg (JVal.obj o) = Arg.str (jsonText (JVal.obj o)))
    ∧ (∀ b, coerceHybridArg (JVal.buf b) = Arg.str (jsonText (JVal.buf b)))
    ∧ jsonText JVal.null = "null"
    ∧ coerceHybridArg JVal.null ≠ Arg.str "null"
    ∧ coerceHybridArg JVal.null ≠ coerceBodyArg JVal.null
    ∧ (∀ seg0 body, hybridParse seg0 body = (jsToUpper seg0, body.map coerceHybridArg)) := by
  refine ⟨⟨rfl, rfl⟩, fun s => rfl, fun n => rfl, fun b => rfl, fun l => rfl,
    fun o => rfl, fun b => rfl, rfl, ?_, ?_, fun seg0 body => rfl⟩
  · intro h
    simp only [coerceHybridArg, Arg.str.injEq] at h
    exact absurd h (by decide)
  · intro h
    simp only [coerceHybridArg, coerceBodyArg, jsonText, jsonStringifyOpt,
      Option.getD_some, Arg.str.injEq] at h
    exact absurd h (by decide)

/-- C6 witness: the coercion evaluated at `null`. -/
theorem hybridCoercion_spec_witness :
    coerceHybridArg JVal.null = Arg.str "" :=
  hybridCoercion_spec.1.1

/-- C7: `parseBodyCommand` on a JSON array fails unless the first element
is text; on success the first element becomes the upper-cased command name
and each remaining element is coerced (text, numeric and binary pass
through; objects, nested arrays, booleans and null are serialized to JSON
text); the empty array fails; the object form with a text command field
delegates to the array rule after prepending the command name. -/
theorem parseBodyCommand_spec :
    (∀ l : List JVal,
        (∃ r, parseBodyCommand (JVal.arr l) = Except.ok r) ↔
          ∃ c rest, l = JVal.str c :: rest)
    ∧ (∀ c rest, parseBodyCommand (JVal.arr (JVal.str c :: rest)) =
        Except.ok (jsToUpper c, rest.map coerceBodyArg))
    ∧ parseBodyCommand (JVal.arr []) = Except.error "Empty command array"
    ∧ (∀ s, coerceBodyArg (JVal.str s) = Arg.str s)
    ∧ (∀ n, coerceBodyArg (JVal.num n) = Arg.num n)
    ∧ (∀ b, coerceBodyArg (JVal.buf b) = Arg.buf b)
    ∧ (∀ b, coerceBodyArg (JVal.bool b) = Arg.str (jsonText (JVal.bool b)))
    ∧ coerceBodyArg JVal.null = Arg.str (jsonText JVal.null)
    ∧ (∀ l, coerceBodyArg (JVal.arr l) = Arg.str (jsonText (JVal.arr l)))
    ∧ (∀ o, coerceBodyArg (JVal.obj o) = Arg.str (jsonText (JVal.obj o)))
    ∧ (∀ fields c, List.lookup "command" fields = some (JVal.str c) →
        parseBodyCommand (JVal.obj fields) =
          parseBodyCommand (JVal.arr (JVal.str c :: objArgs fields))) := by
  refine ⟨?_, fun c rest => rfl, rfl, fun s => rfl, fun n => rfl, fun b => rfl,
    fun b => rfl, rfl, fun l => rfl, fun o => rfl, ?_⟩
  · intro l
    constructor
    · rintro ⟨r, hr⟩
      cases l with
      | nil => simp [parseBodyCommand, parseArrayBody] at hr
      | cons v rest =>
          cases v
          case str c => exact ⟨c, rest, rfl⟩
          all_goals simp [parseBodyCommand, parseArrayBody] at hr
    · rintro ⟨c, rest, rfl⟩
      exact ⟨_, rfl⟩
  · intro fields c h
    simp only [parseBodyCommand, h]

/-- C7 witness: the nested-object coercion scenario evaluated on a
concrete object-form body. -/
theorem parseBodyCommand_spec_witness :
    parseBodyCommand (JVal.obj [("command", JVal.str "set"),
        ("args", JVal.arr [JVal.str "key", JVal.obj [("a", JVal.num 1)]])]) =
      Except.ok ("SET", [Arg.str "key", Arg.str "\x7b\x22a\x22:1\x7d"]) := by
  have h :=
    parseBodyCommand_spec.2.2.2.2.2.2.2.2.2.2
      [("command", JVal.str "set"),
       ("args", JVal.arr [JVal.str "key", JVal.obj [("a", JVal.num 1)]])]
      "set" rfl
  rw [h]
  rfl

/-- C10: an object-form body whose `command` field is text but whose
`args` field is present and not an array does not fail: `args` is treated
as empty and the result is the upper-cased command with zero arguments. -/
theorem parseBodyCommand_nonArrayArgs_spec :
    ∀ fields c, List.lookup "command" fields = some (JVal.str c) →
      (∀ l, List.lookup "args" fields ≠ some (JVal.arr l)) →
      parseBodyCommand (JVal.obj fields) = Except.ok (jsToUpper c, []) := by
  intro fields c hc hargs
  have hobj : objArgs fields = [] := by
    unfold objArgs
    cases h : List.lookup "args" fields with
    | none => rfl
    | some v =>
        cases v
        case arr l => exact absurd h (hargs l)
        all_goals rfl
  simp only [parseBodyCommand, hc, hobj]
  rfl

/-- C10 witness: a string-valued `args` field is silently treated as
empty. -/
theorem parseBodyCommand_nonArrayArgs_spec_witness :
    parseBodyCommand (JVal.obj [("command", JVal.str "get"),
        ("args", JVal.str "oops")]) = Except.ok ("GET", []) := by
  have h := parseBodyCommand_nonArrayArgs_spec
    [("command", JVal.str "get"), ("args", JVal.str "oops")] "get" rfl
    (by intro l hl; simp [List.lookup] at hl)
  rw [h]
  rfl

/-- C9: `serializeResult` maps null and absent to null; maps binary to
its UTF-8 decoding with a base64 fallback when decoding fails; maps
arrays element-wise (order and length preserved); maps bigints to
numbers; and passes text, numbers and the "OK" token through unchanged. -/
theorem serializeResult_spec :
    ∀ dec : List Nat → Option String,
      serializeResult dec RValue.null = JSValue.null
      ∧ serializeResult dec RValue.undef = JSValue.null
      ∧ (∀ b s, dec b = some s → serializeResult dec (RValue.buf b) = JSValue.str s)
      ∧ (∀ b, dec b = none →
          serializeResult dec (RValue.buf b) = JSValue.str (base64Encode b))
      ∧ (∀ l, serializeResult dec (RValue.arr l) = JSValue.arr (l.map (serializeResult dec))
          ∧ (l.map (serializeResult dec)).length = l.length)
      ∧ (∀ n, serializeResult dec (RValue.bigint n) = JSValue.num n)
      ∧ (∀ s, serializeResult dec (RValue.str s) = JSValue.str s)
      ∧ serializeResult dec (RValue.str "OK") = JSValue.str "OK"
      ∧ (∀ n, serializeResult dec (RValue.num n) = JSValue.num n) := by
  intro dec
  refine ⟨by rw [serializeResult], by rw [serializeResult], ?_, ?_, ?_,
    fun n => by rw [serializeResult], ?_, ?_, fun n => by rw [serializeResult]⟩
  · intro b s h
    rw [serializeResult, h]
  · intro b h
    rw [serializeResult, h]
  · intro l
    exact ⟨serializeResult_arr dec l, List.length_map l (serializeResult dec)⟩
  · intro s
    rw [serializeResult]
    by_cases h : s = "OK"
    · rw [if_pos h, h]
    · rw [if_neg h]
  · rw [serializeResult]
    rfl

/-- C9 witness: the decode-success and decode-failure branches evaluated
on the byte list `[1, 2]`. -/
theorem serializeResult_spec_witness :
    serializeResult (fun _ => some "hi") (RValue.buf [1, 2]) = JSValue.str "hi"
    ∧ serializeResult (fun _ => none) (RValue.buf [1, 2]) =
        JSValue.str "AQI=" := by
  constructor
  · exact (serializeResult_spec (fun _ => some "hi")).2.2.1 [1, 2] "hi" rfl
  · have h := (serializeResult_spec (fun _ => none)).2.2.2.1 [1, 2] rfl
    rw [h]
    rfl

/-- Helper: a successful batch parse relates input elements and parsed
commands pointwise. -/
theorem parseAllFrom_ok_forall2 :
    ∀ (l : List JVal) (i : Nat) (rs : List ParsedCommand),
      parseAllFrom i l = Except.ok rs →
      List.Forall₂ (fun x r => parseBodyCommand x = Except.ok r) l rs := by
  intro l
  induction l with
  | nil =>
      intro i rs h
      simp only [parseAllFrom] at h
      cases h
      exact List.Forall₂.nil
  | cons c cs ih =>
      intro i rs h
      simp only [parseAllFrom] at h
      cases hc : parseCommandAt i c with
      | error e => rw [hc] at h; cases h
      | ok r =>
          rw [hc] at h
          cases hrest : parseAllFrom (i + 1) cs with
          | error e => rw [hrest] at h; cases h
          | ok rs' =>
              rw [hrest] at h
              cases h
              have hbody : parseBodyCommand c = Except.ok r := by
                unfold parseCommandAt at hc
                cases hb : parseBodyCommand c with
                | ok r' => rw [hb] at hc; cases hc; rfl
                | error m => rw [hb] at hc; cases hc
              exact List.Forall₂.cons hbody (ih (i + 1) rs' hrest)

/-- Helper: the batch parse aborts at the first failing element, naming
its index (offset by the starting index) and the inner message. -/
theorem parseAllFrom_error_at :
    ∀ (pre : List JVal) (i : Nat) (c : JVal) (post : List JVal) (m : String),
      parseBodyCommand c = Except.error m →
      (∀ x ∈ pre, ∃ r, parseBodyCommand x = Except.ok r) →
      parseAllFrom i (pre ++ c :: post) =
        Except.error ("Invalid command at index " ++ Nat.repr (i + pre.length) ++ ": " ++ m) := by
  intro pre
  induction pre with
  | nil =>
      intro i c post m hc _
      simp only [List.nil_append, parseAllFrom, parseCommandAt, hc, List.length_nil,
        Nat.add_zero]
  | cons x xs ih =>
      intro i c post m hc hpre
      obtain ⟨r, hr⟩ := hpre x (List.mem_cons_self x xs)
      have hrec := ih (i + 1) c post m hc (fun y hy => hpre y (List.mem_cons_of_mem x hy))
      have harith : i + 1 + xs.length = i + (x :: xs).length := by
        simp only [List.length_cons]
        omega
      rw [harith] at hrec
      simp only [List.cons_append, parseAllFrom, parseCommandAt, hr]
      rw [show List.append xs (c :: post) = xs ++ c :: post from rfl, hrec]

/-- C8: for a non-empty batch, any element failing to parse aborts the
whole batch with an error naming the first failing element's index and
the inner failure reason; a successful parse corresponds pointwise to the
input (no partial list); the empty array fails. -/
theorem parseMultipleCommands_spec :
    parseMultipleCommands (JVal.arr []) = Except.error "Empty command array"
    ∧ (∀ pre c post m,
        parseBodyCommand c = Except.error m →
        (∀ x ∈ pre, ∃ r, parseBodyCommand x = Except.ok r) →
        parseMultipleCommands (JVal.arr (pre ++ c :: post)) =
          Except.error ("Invalid command at index " ++ Nat.repr pre.length ++ ": " ++ m))
    ∧ (∀ l rs, parseMultipleCommands (JVal.arr l) = Except.ok rs →
        List.Forall₂ (fun x r => parseBodyCommand x = Except.ok r) l rs
        ∧ rs.length = l.length) := by
  refine ⟨rfl, ?_, ?_⟩
  · intro pre c post m hc hpre
    have hne : (pre ++ c :: post).length ≠ 0 := by
      simp
    simp only [parseMultipleCommands, if_neg hne]
    have h := parseAllFrom_error_at pre 0 c post m hc hpre
    rw [h, Nat.zero_add]
  · intro l rs h
    simp only [parseMultipleCommands] at h
    by_cases hl : l.length = 0
    · rw [if_pos hl] at h
      cases h
    · rw [if_neg hl] at h
      have hf := parseAllFrom_ok_forall2 l 0 rs h
      exact ⟨hf, (List.Forall₂.length_eq hf).symm⟩

/-- C8 witness: a batch whose second element is malformed fails whole,
naming index 1 and the inner reason. -/
theorem parseMultipleCommands_spec_witness :
    parseMultipleCommands (JVal.arr [JVal.arr [JVal.str "get", JVal.str "k"],
        JVal.arr [JVal.num 5]]) =
      Except.error "Invalid command at index 1: Command must be a string" := by
  have h := parseMultipleCommands_spec.2.1
    [JVal.arr [JVal.str "get", JVal.str "k"]] (JVal.arr [JVal.num 5]) [] "Command must be a string"
    rfl
    (by
      intro x hx
      simp only [List.mem_singleton] at hx
      exact ⟨("GET", [Arg.str "k"]), by rw [hx]; rfl⟩)
  exact h

/-- Helper: `List.contains` on strings is list membership. -/
theorem contains_iff_mem (l : List String) (a : String) :
    l.contains a = true ↔ a ∈ l :=
  List.elem_iff

/-- Helper: `jsToUpper` is idempotent. -/
theorem jsToUpper_idem (s : String) : jsToUpper (jsToUpper s) = jsToUpper s := by
  unfold jsToUpper
  refine congrArg String.mk ?_
  show (s.data.map Char.toUpper).map Char.toUpper = s.data.map Char.toUpper
  rw [List.map_map]
  exact List.map_congr_left (fun c _ => char_toUpper_idem c)

/-- Helper: the dangerous-set test on an already upper-cased name is
membership of that name. -/
theorem isDangerousCommand_jsToUpper (cmd : String) :
    isDangerousCommand (jsToUpper cmd) = true ↔ jsToUpper cmd ∈ DANGEROUS_COMMANDS := by
  unfold isDangerousCommand
  rw [jsToUpper_idem]
  exact contains_iff_mem _ _

/-- Helper: the safe-set test on an already upper-cased name is
membership of that name. -/
theorem isSafeCommand_jsToUpper (cmd : String) :
    isSafeCommand (jsToUpper cmd) = true ↔ jsToUpper cmd ∈ SAFE_COMMANDS := by
  unfold isSafeCommand
  rw [jsToUpper_idem]
  exact contains_iff_mem _ _

/-- C3: `validateCommand` raises in blocklist mode exactly when the
upper-cased name is in the builtin dangerous set or the additional-blocked
list; in allowlist mode exactly when the upper-cased name is in neither
the builtin safe set nor the additional-allowed list; never in none mode;
and the decision depends only on the upper-cased name, so mixed-case
variants are decided identically. -/
theorem validateCommand_spec :
    ∀ (cfg : FilterConfig) (cmd : String),
      (cfg.commandFilterMode = FilterMode.blocklist →
        ((∃ e, validateCommand cfg cmd = Except.error e) ↔
          jsToUpper cmd ∈ DANGEROUS_COMMANDS ∨
            jsToUpper cmd ∈ cfg.additionalBlockedCommands))
      ∧ (cfg.commandFilterMode = FilterMode.allowlist →
        ((∃ e, validateCommand cfg cmd = Except.error e) ↔
          ¬(jsToUpper cmd ∈ SAFE_COMMANDS ∨
              jsToUpper cmd ∈ cfg.additionalAllowedCommands)))
      ∧ (cfg.commandFilterMode = FilterMode.nofilter →
          validateCommand cfg cmd = Except.ok ())
      ∧ (∀ cmd2, jsToUpper cmd = jsToUpper cmd2 →
          validateCommand cfg cmd = validateCommand cfg cmd2) := by
  intro cfg cmd
  refine ⟨?_, ?_, ?_, ?_⟩
  · intro hmode
    simp only [validateCommand, hmode]
    by_cases h1 : isDangerousCommand (jsToUpper cmd) = true
    · rw [if_pos h1]
      exact ⟨fun _ => Or.inl ((isDangerousCommand_jsToUpper cmd).mp h1),
        fun _ => ⟨_, rfl⟩⟩
    · rw [if_neg h1]
      by_cases h2 : cfg.additionalBlockedCommands.contains (jsToUpper cmd) = true
      · rw [if_pos h2]
        exact ⟨fun _ => Or.inr ((contains_iff_mem _ _).mp h2), fun _ => ⟨_, rfl⟩⟩
      · rw [if_neg h2]
        constructor
        · rintro ⟨e, he⟩
          cases he
        · intro hmem
          cases hmem with
          | inl h => exact absurd ((isDangerousCommand_jsToUpper cmd).mpr h) h1
          | inr h => exact absurd ((contains_iff_mem _ _).mpr h) h2
  · intro hmode
    simp only [validateCommand, hmode]
    by_cases h1 : (isSafeCommand (jsToUpper cmd) ||
        cfg.additionalAllowedCommands.contains (jsToUpper cmd)) = true
    · rw [if_pos h1]
      rw [Bool.or_eq_true] at h1
      constructor
      · rintro ⟨e, he⟩
        cases he
      · intro hnot
        cases h1 with
        | inl h => exact absurd (Or.inl ((isSafeCommand_jsToUpper cmd).mp h)) hnot
        | inr h => exact absurd (Or.inr ((contains_iff_mem _ _).mp h)) hnot
    · rw [if_neg h1]
      rw [Bool.or_eq_true] at h1
      push_neg at h1
      constructor
      · intro _
        intro hmem
        cases hmem with
        | inl h => exact h1.1 ((isSafeCommand_jsToUpper cmd).mpr h)
        | inr h => exact h1.2 ((contains_iff_mem _ _).mpr h)
      · intro _
        exact ⟨_, rfl⟩
  · intro hmode
    simp only [validateCommand, hmode]
  · intro cmd2 h
    simp only [validateCommand, h]

/-- C3 witness: blocklist mode denies the mixed-case name "FlushAll". -/
theorem validateCommand_spec_witness :
    ∃ e, validateCommand (FilterConfig.mk FilterMode.blocklist [] []) "FlushAll" =
      Except.error e :=
  ((validateCommand_spec (FilterConfig.mk FilterMode.blocklist [] []) "FlushAll").1
    rfl).mpr (Or.inl (by decide))

/-- C2: for commands that pass validation, the pipeline endpoint returns
an array of exactly N envelopes in input order (given the backend's
per-command outcome list), each envelope determined independently by its
own command's `(error, value)` outcome. -/
theorem pipelineRoute_spec :
    ∀ (cfg : FilterConfig) (dec : List Nat → Option String)
      (cmds : List ParsedCommand)
      (exec : List ParsedCommand → Option (List (Option String × RValue)))
      (rs : List (Option String × RValue)),
      validateCommands cfg cmds = Except.ok () →
      exec (queuedCommands cmds) = some rs →
      rs.length = cmds.length →
      pipelineRoute cfg dec cmds exec = Sum.inl (formatMultipleResults dec rs)
      ∧ (formatMultipleResults dec rs).length = cmds.length
      ∧ (∀ i : Nat, (formatMultipleResults dec rs)[i]? =
          (rs[i]?).map (fun p : Option String × RValue =>
            match p.1 with
            | some e => formatError e
            | none => formatSuccess dec p.2)) := by
  intro cfg dec cmds exec rs hval hexec hlen
  refine ⟨?_, ?_, ?_⟩
  · simp only [pipelineRoute, hval, pipelineRun, hexec, Option.getD_some]
  · simp only [formatMultipleResults, List.length_map]
    exact hlen
  · intro i
    simp only [formatMultipleResults, List.getElem?_map]

/-- C2 witness: a two-command pipeline with one failing command still
yields two envelopes, the failure affecting only its own slot. -/
theorem pipelineRoute_spec_witness :
    pipelineRoute (FilterConfig.mk FilterMode.nofilter [] []) (fun _ => none)
        [("SET", [Arg.str "k", Arg.str "v"]), ("LPUSH", [Arg.str "k", Arg.str "x"])]
        (fun _ => some [(none, RValue.str "OK"), (some "WRONGTYPE", RValue.null)]) =
      Sum.inl [Envelope.success (JSValue.str "OK"), Envelope.failure "WRONGTYPE"] := by
  have h := pipelineRoute_spec (FilterConfig.mk FilterMode.nofilter [] []) (fun _ => none)
    [("SET", [Arg.str "k", Arg.str "v"]), ("LPUSH", [Arg.str "k", Arg.str "x"])]
    (fun _ => some [(none, RValue.str "OK"), (some "WRONGTYPE", RValue.null)])
    [(none, RValue.str "OK"), (some "WRONGTYPE", RValue.null)]
    rfl rfl rfl
  rw [h.1]
  simp only [formatMultipleResults, List.map_cons, List.map_nil, formatSuccess, formatError]
  rw [serializeResult]
  rfl

/-- C1: for validated commands, the transaction endpoint returns either
exactly N success envelopes in input order (when every per-command
outcome is error-free) or a single top-level error envelope; when at
least one per-command outcome is an error, the single error references
the first failing command's message and the remaining outcomes are
discarded; no response mixes success and error envelopes in the array. -/
theorem multiExecRoute_spec :
    ∀ (cfg : FilterConfig) (dec : List Nat → Option String)
      (cmds : List ParsedCommand)
      (exec : List ParsedCommand → Option (List (Option String × RValue)))
      (rs : List (Option String × RValue)),
      validateCommands cfg cmds = Except.ok () →
      exec (queuedCommands cmds) = some rs →
      rs.length = cmds.length →
      ((∀ p ∈ rs, p.1 = Option.none) →
        multiExecRoute cfg dec cmds exec =
          Sum.inl (rs.map (fun p => formatSuccess dec p.2))
        ∧ (rs.map (fun p => formatSuccess dec p.2)).length = cmds.length)
      ∧ (∀ pre m v post,
          rs = pre ++ ((some m, v)) :: post →
          (∀ p ∈ pre, p.1 = Option.none) →
          multiExecRoute cfg dec cmds exec =
            Sum.inr (Envelope.failure ("Transaction failed: " ++ m)))
      ∧ ((∃ l, multiExecRoute cfg dec cmds exec = Sum.inl l
            ∧ l.length = cmds.length
            ∧ ∀ env ∈ l, ∃ jv, env = Envelope.success jv)
         ∨ (∃ e, multiExecRoute cfg dec cmds exec = Sum.inr (Envelope.failure e))) := by
  intro cfg dec cmds exec rs hval hexec hlen
  refine ⟨?_, ?_, ?_⟩
  · intro hclean
    have hfilter : rs.filter (fun p => p.1.isSome) = [] := by
      rw [List.filter_eq_nil_iff]
      intro p hp
      rw [hclean p hp]
      simp
    constructor
    · simp only [multiExecRoute, hval, transactionRun, hexec, hfilter, List.map_map]
      rfl
    · rw [List.length_map]
      exact hlen
  · intro pre m v post hrs hpre
    have hfilterpre : pre.filter (fun p => p.1.isSome) = [] := by
      rw [List.filter_eq_nil_iff]
      intro p hp
      rw [hpre p hp]
      simp
    have hfilter : rs.filter (fun p => p.1.isSome) =
        ((some m, v)) :: post.filter (fun p => p.1.isSome) := by
      rw [hrs, List.filter_append, hfilterpre, List.nil_append, List.filter_cons]
      simp
    simp only [multiExecRoute, hval, transactionRun, hexec, hfilter]
    rfl
  · cases hfilter : rs.filter (fun p => p.1.isSome) with
    | nil =>
        left
        refine ⟨rs.map (fun p => formatSuccess dec p.2), ?_, ?_, ?_⟩
        · simp only [multiExecRoute, hval, transactionRun, hexec, hfilter, List.map_map]
          rfl
        · rw [List.length_map]
          exact hlen
        · intro env henv
          rw [List.mem_map] at henv
          obtain ⟨p, _, hp⟩ := henv
          exact ⟨serializeResult dec p.2, hp.symm⟩
    | cons e rest =>
        right
        refine ⟨"Transaction failed: " ++ errMessage e.1, ?_⟩
        simp only [multiExecRoute, hval, transactionRun, hexec, hfilter]
        rfl

/-- C1 witness: the transaction failure scenario — per-command outcomes
`[(null, "OK"), (WRONGTYPE, null)]` yield the single aggregate error
envelope, not a two-element array. -/
theorem multiExecRoute_spec_witness :
    multiExecRoute (FilterConfig.mk FilterMode.nofilter [] []) (fun _ => none)
        [("SET", [Arg.str "k", Arg.str "v"]), ("LPUSH", [Arg.str "k", Arg.str "x"])]
        (fun _ => some [(none, RValue.str "OK"), (some "WRONGTYPE", RValue.null)]) =
      Sum.inr (Envelope.failure "Transaction failed: WRONGTYPE") := by
  have h := (multiExecRoute_spec (FilterConfig.mk FilterMode.nofilter [] []) (fun _ => none)
    [("SET", [Arg.str "k", Arg.str "v"]), ("LPUSH", [Arg.str "k", Arg.str "x"])]
    (fun _ => some [(none, RValue.str "OK"), (some "WRONGTYPE", RValue.null)])
    [(none, RValue.str "OK"), (some "WRONGTYPE", RValue.null)]
    rfl rfl rfl).2.1
    [(none, RValue.str "OK")] "WRONGTYPE" RValue.null [] rfl
    (by
      intro p hp
      rw [List.mem_singleton] at hp
      rw [hp])
  exact h

/-- C5: a caller arriving during an in-flight creation attempt shares
that attempt (no second attempt is started, state unchanged); a failed
attempt clears the cached in-flight promise as part of the same
un-interruptible catch block, before the error propagates; hence after a
failed attempt no acquire call can observe a stale failed promise — it
either uses the ready cached client or starts a fresh attempt. -/
theorem connectionReset_spec :
    ∀ (s : MgrState) (fresh p : Nat),
      (s.clientReady = false → s.connectionPromise = some p →
        acquireStep s fresh = (AcquireAction.sharedAttempt p, s))
      ∧ (settleAttempt s false).connectionPromise = none
      ∧ (∀ q, (acquireStep (settleAttempt s false) fresh).1 ≠
          AcquireAction.sharedAttempt q)
      ∧ ((settleAttempt s false).clientReady = false →
          (acquireStep (settleAttempt s false) fresh).1 =
            AcquireAction.startAttempt fresh
          ∧ (acquireStep (settleAttempt s false) fresh).2.connectionPromise =
              some fresh) := by
  intro s fresh p
  refine ⟨?_, ?_, ?_, ?_⟩
  · intro hready hp
    simp only [acquireStep, hready, Bool.false_eq_true, if_false, hp]
  · simp only [settleAttempt, if_neg (by simp : ¬(false = true))]
  · intro q
    simp only [settleAttempt, if_neg (by simp : ¬(false = true)), acquireStep]
    by_cases h : s.clientReady = true
    · rw [if_pos h]
      simp
    · rw [if_neg h]
      simp
  · intro hready
    simp only [settleAttempt, if_neg (by simp : ¬(false = true))] at hready ⊢
    simp [acquireStep, hready]

/-- C5 witness: from a connecting state with attempt 7, a concurrent
caller shares attempt 7; after that attempt fails, the promise cache is
cleared and the next acquire starts the fresh attempt 3. -/
theorem connectionReset_spec_witness :
    acquireStep (MgrState.mk false (some 7)) 3 =
      (AcquireAction.sharedAttempt 7, MgrState.mk false (some 7))
    ∧ (settleAttempt (MgrState.mk false (some 7)) false).connectionPromise = none
    ∧ (acquireStep (settleAttempt (MgrState.mk false (some 7)) false) 3).1 =
        AcquireAction.startAttempt 3 :=
  ⟨(connectionReset_spec (MgrState.mk false (some 7)) 3 7).1 rfl rfl,
   (connectionReset_spec (MgrState.mk false (some 7)) 3 7).2.1,
   ((connectionReset_spec (MgrState.mk false (some 7)) 3 7).2.2.2 rfl).1⟩

/-- Helper: on a non-empty pool, `getPooledClient` skips initialization
and its result is given by selection, inline reconnect, and cursor
advance. -/
theorem getPooledClient_eq (m : Int) (s : PoolState) (h : s.pool ≠ []) :
    getPooledClient m s =
      ((if (s.pool.getD s.poolIndex (PoolConn.mk 0 false)).ready
        then s.pool.getD s.poolIndex (PoolConn.mk 0 false)
        else connConnect (s.pool.getD s.poolIndex (PoolConn.mk 0 false))),
       PoolState.mk
         (s.pool.set s.poolIndex
           (if (s.pool.getD s.poolIndex (PoolConn.mk 0 false)).ready
            then s.pool.getD s.poolIndex (PoolConn.mk 0 false)
            else connConnect (s.pool.getD s.poolIndex (PoolConn.mk 0 false))))
         ((s.poolIndex + 1) % s.pool.length)) := by
  have hlen : ¬s.pool.length = 0 := by
    simpa [List.length_eq_zero] using h
  simp only [getPooledClient, if_neg hlen]

/-- Helper: selection preserves the pool size. -/
theorem getPooledClient_poolLength (m : Int) (s : PoolState) (h : s.pool ≠ []) :
    (getPooledClient m s).2.pool.length = s.pool.length := by
  rw [getPooledClient_eq m s h]
  simp [List.length_set]

/-- Helper: selection advances the cursor modulo the pool size. -/
theorem getPooledClient_poolIndex (m : Int) (s : PoolState) (h : s.pool ≠ []) :
    (getPooledClient m s).2.poolIndex = (s.poolIndex + 1) % s.pool.length := by
  rw [getPooledClient_eq m s h]

/-- Helper: the cursor positions read by `k` consecutive selections from
a valid pool state are the successive rotations of the starting cursor. -/
theorem selectedSlots_formula (m : Int) :
    ∀ (k : Nat) (s : PoolState), s.pool ≠ [] → s.poolIndex < s.pool.length →
      selectedSlots m s k =
        (List.range k).map (fun j => (s.poolIndex + j) % s.pool.length) := by
  intro k
  induction k with
  | zero =>
      intro s h hidx
      rfl
  | succ n ih =>
      intro s h hidx
      have hP : 0 < s.pool.length := List.length_pos.mpr h
      have hlen' := getPooledClient_poolLength m s h
      have hidx' := getPooledClient_poolIndex m s h
      have hne' : (getPooledClient m s).2.pool ≠ [] := by
        rw [← List.length_pos, hlen']
        exact hP
      have hlt' : (getPooledClient m s).2.poolIndex <
          (getPooledClient m s).2.pool.length := by
        rw [hidx', hlen']
        exact Nat.mod_lt _ hP
      have hrec := ih (getPooledClient m s).2 hne' hlt'
      rw [selectedSlots, hrec, hidx', hlen', List.range_succ_eq_map]
      simp only [List.map_cons, List.map_map]
      congr 1
      · rw [Nat.add_zero, Nat.mod_eq_of_lt hidx]
      · refine List.map_congr_left ?_
        intro j _
        show ((s.poolIndex + 1) % s.pool.length + j) % s.pool.length =
          (s.poolIndex + Nat.succ j) % s.pool.length
        rw [Nat.mod_add_mod]
        congr 1
        omega

/-- Helper: rotating `range P` by any fixed offset modulo `P` is a
permutation of `range P`. -/
theorem rotation_perm (P c : Nat) (hP : 0 < P) :
    ((List.range P).map (fun j => (c + j) % P)).Perm (List.range P) := by
  have hnodup : ((List.range P).map (fun j => (c + j) % P)).Nodup := by
    refine List.Nodup.map_on ?_ (List.nodup_range P)
    intro x hx y hy hxy
    rw [List.mem_range] at hx hy
    have hmod : x ≡ y [MOD P] := Nat.ModEq.add_left_cancel' c hxy
    rwa [Nat.ModEq, Nat.mod_eq_of_lt hx, Nat.mod_eq_of_lt hy] at hmod
  have hsub : ((List.range P).map (fun j => (c + j) % P)) ⊆ List.range P := by
    intro x hx
    rw [List.mem_map] at hx
    obtain ⟨j, _, rfl⟩ := hx
    rw [List.mem_range]
    exact Nat.mod_lt _ hP
  exact (hnodup.subperm hsub).perm_of_length_le (by simp)

/-- C4: the pool is created with `max(configured minimum, 1)` connections;
the cursor advances modulo the pool size on every selection, so P
consecutive selections over a pool of size P visit each slot exactly once
before repeating; and a selected connection that is not ready is
reconnected inline — the selected slot is used, not skipped, and the
returned connection is ready. -/
theorem poolRoundRobin_spec :
    (∀ m : Int, (initializePool m).length = (max m 1).toNat)
    ∧ (∀ (m : Int) (s : PoolState), s.pool ≠ [] →
        (getPooledClient m s).2.poolIndex = (s.poolIndex + 1) % s.pool.length)
    ∧ (∀ (m : Int) (s : PoolState), s.pool ≠ [] → s.poolIndex < s.pool.length →
        (selectedSlots m s s.pool.length).Perm (List.range s.pool.length))
    ∧ (∀ (m : Int) (s : PoolState) (h : s.poolIndex < s.pool.length),
        (getPooledClient m s).1.idx = (s.pool.get ⟨s.poolIndex, h⟩).idx
        ∧ (getPooledClient m s).1.ready = true)
    ∧ (∀ m : Int,
        (getPooledClient m (PoolState.mk [] 0)).2.pool.length = (max m 1).toNat) := by
  refine ⟨?_, ?_, ?_, ?_, ?_⟩
  · intro m
    simp [initializePool]
  · intro m s h
    exact getPooledClient_poolIndex m s h
  · intro m s h hidx
    rw [selectedSlots_formula m s.pool.length s h hidx]
    exact rotation_perm s.pool.length s.poolIndex (List.length_pos.mpr h)
  · intro m s h
    have hne : s.pool ≠ [] := by
      intro hnil
      rw [hnil] at h
      exact absurd h (by simp)
    have hgetD : s.pool.getD s.poolIndex (PoolConn.mk 0 false) =
        s.pool.get ⟨s.poolIndex, h⟩ := by
      rw [List.getD_eq_getElem?_getD, List.getElem?_eq_getElem h, Option.getD_some,
        List.get_eq_getElem]
    rw [getPooledClient_eq m s hne]
    simp only [hgetD]
    by_cases hready : (s.pool.get ⟨s.poolIndex, h⟩).ready
    · rw [if_pos hready]
      exact ⟨rfl, hready⟩
    · rw [if_neg hready]
      exact ⟨rfl, rfl⟩
  · intro m
    have hlen : (([] : List PoolConn).length = 0) := rfl
    simp only [getPooledClient, if_pos hlen, List.length_set]
    simp [initializePool]

/-- C4 witness: three consecutive selections over a pool of size three
visit the slots as a permutation of all three, and a not-ready selected
connection is used inline (same slot, ready on return). -/
theorem poolRoundRobin_spec_witness :
    (selectedSlots 2 (PoolState.mk
        [PoolConn.mk 0 true, PoolConn.mk 1 true, PoolConn.mk 2 false] 0) 3).Perm
      (List.range 3)
    ∧ (getPooledClient 2 (PoolState.mk
        [PoolConn.mk 0 true, PoolConn.mk 1 false] 1)).1.ready = true :=
  ⟨poolRoundRobin_spec.2.2.1 2
      (PoolState.mk [PoolConn.mk 0 true, PoolConn.mk 1 true, PoolConn.mk 2 false] 0)
      (by simp) (by simp),
   (poolRoundRobin_spec.2.2.2.1 2
      (PoolState.mk [PoolConn.mk 0 true, PoolConn.mk 1 false] 1)
      (by simp)).2⟩
